import Mathlib

/-!
Verification of the numeric model of the dipole-length calculator
(`src/dipole-antennas.py`). Python floats are modelled as real numbers;
NumPy arrays as lists of reals; the vectorized masked assignment in
`current_distribution` as a pointwise piecewise function mapped over the
position list. The UI `update`/`reset` paths are modelled by explicit
state passing: the text box's parse result is an `Option ℝ`.
-/

namespace Dipole

/-- Speed of light constant `C = 299_792_458` from the source. -/
def C : ℝ := 299792458

/-- Embedding of `wavelength_m(freq_mhz) = C / (freq_mhz * 1e6)`. -/
noncomputable def wavelength_m (freq_mhz : ℝ) : ℝ := C / (freq_mhz * 1e6)

/-- Pointwise value of `current_distribution` at one position `x`:
the source sets `I = 0` everywhere and overwrites `sin(2π(half − |x|))`
on the mask `|x| ≤ half`, with `half = L_elec_lambda / 2`. -/
noncomputable def current_point (L_elec_lambda x : ℝ) : ℝ :=
  if |x| ≤ L_elec_lambda / 2 then
    Real.sin (2 * Real.pi * (L_elec_lambda / 2 - |x|))
  else 0

/-- Embedding of `current_distribution(x, L_elec_lambda)`: the vectorized
computation applied elementwise over the position samples. -/
noncomputable def current_distribution (x : List ℝ) (L_elec_lambda : ℝ) : List ℝ :=
  x.map (current_point L_elec_lambda)

/-- Embedding of `lengths(freq_mhz, vf, mult)` returning
`(lam, L_total, L_total / 2)`. -/
noncomputable def lengths (freq_mhz vf mult : ℝ) : ℝ × ℝ × ℝ :=
  let lam := wavelength_m freq_mhz
  let L_total := mult * lam * vf
  (lam, L_total, L_total / 2)

/-- Default frequency `freq0 = 100.0` MHz from the source. -/
def freq0 : ℝ := 100.0

/-- Default velocity factor `vf0 = 0.95` from the source. -/
def vf0 : ℝ := 0.95

/-- Default length multiplier `mult0 = 0.5` from the source. -/
def mult0 : ℝ := 0.5

/-- Frequency resolution in `update`: `float(tb_freq.text)` either fails
(`none`) or yields a number `f`; `f ≤ 0` raises, and any failure is caught
by substituting `freq0`. -/
noncomputable def resolveFreq (parsed : Option ℝ) : ℝ :=
  match parsed with
  | none => freq0
  | some f => if f ≤ 0 then freq0 else f

/-- UI parameter state: the parse result of the frequency text box and the
two slider values. -/
structure ParamState where
  freqInput : Option ℝ
  vf : ℝ
  mult : ℝ

/-- Embedding of `reset`: sets the text box to `str(freq0)` (which parses
back to `freq0`) and both sliders back to their `valinit` defaults. -/
def resetState (_s : ParamState) : ParamState := ⟨some freq0, vf0, mult0⟩

/-- Outputs recomputed by `update` from a parameter state: wavelength,
total length, arm length, and the current profile over the samples. -/
noncomputable def computeOutputs (xs : List ℝ) (s : ParamState) : ℝ × ℝ × ℝ × List ℝ :=
  let f := resolveFreq s.freqInput
  let r := lengths f s.vf s.mult
  (r.1, r.2.1, r.2.2, current_distribution xs s.mult)

lemma resolveFreq_some (f : ℝ) :
    resolveFreq (some f) = if f ≤ 0 then freq0 else f := rfl

lemma current_point_inside (L x : ℝ) (h : |x| ≤ L / 2) :
    current_point L x = Real.sin (2 * Real.pi * (L / 2 - |x|)) := if_pos h

lemma current_point_outside (L x : ℝ) (h : ¬ |x| ≤ L / 2) :
    current_point L x = 0 := if_neg h

/-- C2: for every frequency_mhz > 0, `wavelength_m` returns exactly
`299792458 / (frequency_mhz * 1e6)`, and the value is positive (hence
finite, as every real number is). -/
theorem wavelength_exact_and_positive (f : ℝ) (hf : 0 < f) :
    wavelength_m f = 299792458 / (f * 1e6) ∧ 0 < wavelength_m f := by
  constructor
  · rfl
  · unfold wavelength_m C
    positivity

theorem wavelength_exact_and_positive_witness :
    (0 : ℝ) < 100 ∧
      (wavelength_m 100 = 299792458 / (100 * 1e6) ∧ 0 < wavelength_m 100) :=
  ⟨by norm_num, wavelength_exact_and_positive 100 (by norm_num)⟩

/-- C1: for every positions sequence and every length_multiplier, the
output of `current_distribution` has the same length as the input, and
each element is `0` when `|x| > half` and `sin(2π(half − |x|))` when
`|x| ≤ half`, with `half = L/2`. -/
theorem current_distribution_pointwise (xs : List ℝ) (L : ℝ) :
    (current_distribution xs L).length = xs.length ∧
    ∀ i, (hi : i < xs.length) → (hm : i < (current_distribution xs L).length) →
      (current_distribution xs L).get ⟨i, hm⟩ =
        if |xs.get ⟨i, hi⟩| ≤ L / 2 then
          Real.sin (2 * Real.pi * (L / 2 - |xs.get ⟨i, hi⟩|))
        else 0 := by
  constructor
  · simp [current_distribution]
  · intro i hi hm
    simp [current_distribution, current_point]

theorem current_distribution_pointwise_witness :
    (current_distribution [(0 : ℝ)] 1).length = 1 ∧
    (current_distribution [(0 : ℝ)] 1).get
        ⟨0, by simp [current_distribution]⟩ =
      if |(0 : ℝ)| ≤ 1 / 2 then Real.sin (2 * Real.pi * (1 / 2 - |(0 : ℝ)|))
      else 0 := by
  refine ⟨(current_distribution_pointwise [(0 : ℝ)] 1).1, ?_⟩
  have h := (current_distribution_pointwise [(0 : ℝ)] 1).2 0 (by simp)
    (by simp [current_distribution])
  simpa using h

/-- C3: for positive frequency, velocity factor and multiplier, `lengths`
returns the wavelength, `mult * lam * vf`, and half of that total, with
`arm = total / 2` holding exactly. -/
theorem lengths_components (f vf mult : ℝ) (hf : 0 < f) (hv : 0 < vf)
    (hm : 0 < mult) :
    lengths f vf mult =
      (wavelength_m f, mult * wavelength_m f * vf,
        mult * wavelength_m f * vf / 2) ∧
    (lengths f vf mult).2.2 = (lengths f vf mult).2.1 / 2 :=
  ⟨rfl, rfl⟩

theorem lengths_components_witness :
    lengths 100 0.95 0.5 =
      (wavelength_m 100, 0.5 * wavelength_m 100 * 0.95,
        0.5 * wavelength_m 100 * 0.95 / 2) ∧
    (lengths 100 0.95 0.5).2.2 = (lengths 100 0.95 0.5).2.1 / 2 :=
  lengths_components 100 0.95 0.5 (by norm_num) (by norm_num) (by norm_num)

/-- C4: the current profile is an even function of position: the pointwise
value at `x` equals the pointwise value at `−x`. -/
theorem current_point_even (L x : ℝ) :
    current_point L x = current_point L (-x) := by
  unfold current_point
  rw [abs_neg]

lemma abs_quarter : |(1 / 4 : ℝ)| = 1 / 4 := abs_of_nonneg (by norm_num)

lemma abs_half : |(1 / 2 : ℝ)| = 1 / 2 := abs_of_nonneg (by norm_num)

lemma current_point_one_quarter : current_point 1 (1 / 4) = 1 := by
  rw [current_point_inside 1 (1 / 4) (by rw [abs_quarter]; norm_num),
    abs_quarter]
  have harg : 2 * Real.pi * ((1 : ℝ) / 2 - 1 / 4) = Real.pi / 2 := by ring
  rw [harg, Real.sin_pi_div_two]

lemma current_point_one_half : current_point 1 (1 / 2) = 0 := by
  rw [current_point_inside 1 (1 / 2) (by rw [abs_half]), abs_half]
  have harg : 2 * Real.pi * ((1 : ℝ) / 2 - 1 / 2) = 0 := by ring
  rw [harg, Real.sin_zero]

lemma current_point_one_zero : current_point 1 0 = 0 := by
  rw [current_point_inside 1 0 (by rw [abs_zero]; norm_num), abs_zero]
  have harg : 2 * Real.pi * ((1 : ℝ) / 2 - 0) = Real.pi := by ring
  rw [harg, Real.sin_pi]

/-- C5 counterexample: with `length_multiplier = 1.0` the profile at
`x = 0.25` is `sin(2π(0.5 − 0.25)) = 1`, not `0` as the claim states. -/
theorem full_wave_quarter_not_zero : ¬ current_point 1 (1 / 4) = 0 := by
  rw [current_point_one_quarter]
  norm_num

/-- C5 (amended): with `length_multiplier = 1.0`, the profile at
`x = ±0.25` is `1` (the current peaks there; the `sin(2π×0) = 0` region
boundary is at `x = ±0.5`, the ends), while `x = 0` yields
`sin(2π×0.5) = 0`, a null at the center. -/
theorem full_wave_profile_values :
    current_point 1 (1 / 4) = 1 ∧ current_point 1 (-(1 / 4)) = 1 ∧
    current_point 1 0 = 0 ∧ current_point 1 0 = Real.sin (2 * Real.pi * (1 / 2)) ∧
    current_point 1 (1 / 2) = 0 ∧ current_point 1 (-(1 / 2)) = 0 := by
  refine ⟨current_point_one_quarter, ?_, current_point_one_zero, ?_, ?_, ?_⟩
  · rw [← current_point_even, current_point_one_quarter]
  · rw [current_point_one_zero]
    have harg : 2 * Real.pi * ((1 : ℝ) / 2) = Real.pi := by ring
    rw [harg, Real.sin_pi]
  · exact current_point_one_half
  · rw [← current_point_even, current_point_one_half]

/-- C6: with `length_multiplier = 0.5`, the profile at `x = 0` equals
`sin(2π × 0.25) = 1`, and this value bounds the profile at every
position. -/
theorem half_wave_center_peak :
    current_point 0.5 0 = 1 ∧
    current_point 0.5 0 = Real.sin (2 * Real.pi * (1 / 4)) ∧
    ∀ x, current_point 0.5 x ≤ current_point 0.5 0 := by
  have harg : 2 * Real.pi * ((0.5 : ℝ) / 2 - |(0 : ℝ)|) = Real.pi / 2 := by
    rw [abs_zero]; ring
  have h0 : current_point 0.5 0 = 1 := by
    rw [current_point_inside 0.5 0 (by rw [abs_zero]; norm_num), harg,
      Real.sin_pi_div_two]
  refine ⟨h0, ?_, ?_⟩
  · rw [h0]
    have : 2 * Real.pi * ((1 : ℝ) / 4) = Real.pi / 2 := by ring
    rw [this, Real.sin_pi_div_two]
  · intro x
    rw [h0]
    unfold current_point
    split
    · exact Real.sin_le_one _
    · norm_num

lemma current_point_zero_mult (x : ℝ) : current_point 0 x = 0 := by
  unfold current_point
  split
  case isTrue h =>
    have hx : |x| = 0 := le_antisymm (by simpa using h) (abs_nonneg x)
    rw [hx]
    norm_num
  case isFalse h => rfl

/-- C9: with `length_multiplier = 0`, the profile is all-zero: every
position with `|x| > 0` is outside the structure and yields `0`, and
`x = 0` evaluates to `sin(0) = 0`. -/
theorem zero_mult_all_zero :
    current_point 0 0 = Real.sin 0 ∧ Real.sin 0 = 0 ∧
    (∀ x : ℝ, current_point 0 x = 0) ∧
    ∀ xs : List ℝ, current_distribution xs 0 = xs.map fun _ => (0 : ℝ) := by
  refine ⟨?_, Real.sin_zero, current_point_zero_mult, ?_⟩
  · rw [current_point_zero_mult]
    rw [Real.sin_zero]
  · intro xs
    unfold current_distribution
    have : current_point 0 = fun _ : ℝ => (0 : ℝ) :=
      funext current_point_zero_mult
    rw [this]

/-- C7: a failed parse (`none`) or a parsed value `≤ 0` makes `update`
substitute the initial default `freq0 = 100.0` (a constant, independent of
any previously entered value) with no error surfaced, while any parsed
value `> 0` is used unchanged. -/
theorem update_freq_fallback :
    resolveFreq none = freq0 ∧ freq0 = 100 ∧
    (∀ f : ℝ, f ≤ 0 → resolveFreq (some f) = freq0) ∧
    (∀ f : ℝ, 0 < f → resolveFreq (some f) = f) := by
  refine ⟨rfl, by norm_num [freq0], ?_, ?_⟩
  · intro f hf
    rw [resolveFreq_some, if_pos hf]
  · intro f hf
    rw [resolveFreq_some, if_neg (not_le.mpr hf)]

theorem update_freq_fallback_witness :
    resolveFreq (some (-5)) = freq0 ∧ resolveFreq (some 0) = freq0 ∧
    resolveFreq (some 50) = 50 :=
  ⟨update_freq_fallback.2.2.1 (-5) (by norm_num),
   update_freq_fallback.2.2.1 0 le_rfl,
   update_freq_fallback.2.2.2 50 (by norm_num)⟩

/-- C8: starting from any parameter state, after `reset` the recomputed
wavelength, total length, arm length and current profile equal the
outputs computed from the defaults `(100.0, 0.95, 0.5)`. -/
theorem reset_restores_defaults (s : ParamState) (xs : List ℝ) :
    computeOutputs xs (resetState s) = computeOutputs xs ⟨some 100, 0.95, 0.5⟩ ∧
    computeOutputs xs (resetState s) =
      (wavelength_m 100, 0.5 * wavelength_m 100 * 0.95,
        0.5 * wavelength_m 100 * 0.95 / 2, current_distribution xs 0.5) := by
  have hres : resolveFreq (some freq0) = freq0 := by
    rw [resolveFreq_some, if_neg (by norm_num [freq0])]
  have hf : freq0 = 100 := by norm_num [freq0]
  have hv : vf0 = 0.95 := rfl
  have hm : mult0 = 0.5 := rfl
  constructor
  · unfold computeOutputs resetState
    rw [hres, hf, hv, hm]
    have hres100 : resolveFreq (some 100) = 100 := by
      rw [resolveFreq_some, if_neg (by norm_num)]
    rw [hres100]
  · unfold computeOutputs resetState lengths
    rw [hres, hf, hv, hm]

lemma current_point_bounds (L x : ℝ) :
    -1 ≤ current_point L x ∧ current_point L x ≤ 1 := by
  unfold current_point
  split
  · exact ⟨Real.neg_one_le_sin _, Real.sin_le_one _⟩
  · norm_num

lemma current_point_nonpos_mult (L x : ℝ) (hL : L ≤ 0) :
    current_point L x = 0 := by
  unfold current_point
  split
  case isTrue h =>
    have hL2 : L / 2 ≤ 0 := by linarith
    have hx : |x| = 0 := le_antisymm (h.trans hL2) (abs_nonneg x)
    have hL0 : L / 2 = 0 := le_antisymm hL2 (hx ▸ h)
    rw [hx, hL0]
    norm_num
  case isFalse h => rfl

/-- C10: every element of `current_distribution` lies in `[−1, 1]` for
any length_multiplier, and for `length_multiplier ≤ 0` the output is
all-zero. -/
theorem current_distribution_invariants :
    (∀ L x : ℝ, -1 ≤ current_point L x ∧ current_point L x ≤ 1) ∧
    (∀ (L : ℝ) (xs : List ℝ) (y : ℝ), y ∈ current_distribution xs L →
      -1 ≤ y ∧ y ≤ 1) ∧
    (∀ L : ℝ, L ≤ 0 → ∀ xs : List ℝ,
      current_distribution xs L = xs.map fun _ => (0 : ℝ)) := by
  refine ⟨current_point_bounds, ?_, ?_⟩
  · intro L xs y hy
    obtain ⟨x, _, rfl⟩ := List.mem_map.mp hy
    exact current_point_bounds L x
  · intro L hL xs
    unfold current_distribution
    have : current_point L = fun _ : ℝ => (0 : ℝ) :=
      funext fun x => current_point_nonpos_mult L x hL
    rw [this]

theorem current_distribution_invariants_witness :
    (-1 ≤ current_point 2 (1 / 3) ∧ current_point 2 (1 / 3) ≤ 1) ∧
    current_distribution [(3 : ℝ)] (-2) = [(0 : ℝ)] := by
  constructor
  · have hmem : current_point 2 (1 / 3) ∈ current_distribution [(1 / 3 : ℝ)] 2 := by
      simp [current_distribution]
    exact current_distribution_invariants.2.1 2 [(1 / 3 : ℝ)]
      (current_point 2 (1 / 3)) hmem
  · have h := current_distribution_invariants.2.2 (-2) (by norm_num) [(3 : ℝ)]
    simpa using h

end Dipole
